import Mathlib

/-!
# A verification development for the kailua interpreter core

Shallow embedding of the interpreter's value model (`src/value.rs`), lexer
(`src/lex.rs`), single-pass compiler (`src/parse.rs`) and virtual machine
(`src/vm.rs`), together with theorems settling the specification's claims.

Bytes are modelled as `Nat` (the operations never depend on the `u8` range),
Rust `String`s as byte lists, `f64` as its 64-bit pattern, and
reference-counted handles (`Rc`) by their address where identity matters; a
table handle additionally carries the shared `Table` contents, which its
`PartialEq` compares while its `Hash` uses only the address.
-/

deriving instance DecidableEq for Except

namespace Kailua

/-! ## Value model (src/value.rs) -/

def SHORT_STR_MAX : Nat := 14

def MID_STR_MAX : Nat := 48 - 1

/-- Runtime values, mirroring `enum Value` in src/value.rs.

* `float bits` carries the IEEE-754 binary64 bit pattern (`f64`).
* `shortStr len buf` mirrors `ShortStr(u8, [u8; 14])`: a stored length plus a
  fixed zero-padded buffer; likewise `midStr` for `MidStr(Rc<(u8, [u8; 47])>)`.
* `table addr array map` models `Table(Rc<RefCell<Table>>)`: `addr` is the
  `Rc` allocation's address (what `Rc::as_ptr` hashes) and `array`/`map` are
  the pointed-to `struct Table` contents (what the derived `PartialEq`
  compares, through `Rc`/`RefCell`); the `HashMap` part is carried as its
  entry list.
* `function fid` models the `fn(&mut ExeState) -> i32` pointer by an id;
  id 0 is the built-in `lib_print`. -/
inductive Value where
  | nil
  | boolean (b : Bool)
  | integer (i : Int)
  | float (bits : Nat)
  | shortStr (len : Nat) (buf : List Nat)
  | midStr (len : Nat) (buf : List Nat)
  | longStr (s : List Nat)
  | table (addr : Nat) (array : List Value) (map : List (Value × Value))
  | function (fid : Nat)

/-- `vec_to_short_mid_str` from src/value.rs: build the inline or the
shared-fixed-buffer tier when the byte length allows it. -/
def vec_to_short_mid_str (v : List Nat) : Option Value :=
  let len := v.length
  if len ≤ SHORT_STR_MAX then
    some (.shortStr len (v ++ List.replicate (SHORT_STR_MAX - len) 0))
  else if len ≤ MID_STR_MAX then
    some (.midStr len (v ++ List.replicate (MID_STR_MAX - len) 0))
  else
    none

/-- `impl From<&[u8]> for Value` (also `From<Vec<u8>>`, `From<&str>`,
`From<String>`): the tiered string constructor. -/
def Value.ofBytes (v : List Nat) : Value :=
  (vec_to_short_mid_str v).getD (.longStr v)

/-- `impl TryFrom<&Value> for &[u8]`: extract the byte content of any string
tier; `none` models the `bail!("not a string")` branch. -/
def Value.asBytes? : Value → Option (List Nat)
  | .shortStr len buf => some (buf.take len)
  | .midStr len buf => some (buf.take len)
  | .longStr s => some s
  | _ => none

/-- Tier discriminator used to state the construction claims:
0 = ShortStr, 1 = MidStr, 2 = LongStr, 3 = not a string. -/
def Value.strTier : Value → Nat
  | .shortStr _ _ => 0
  | .midStr _ _ => 1
  | .longStr _ => 2
  | _ => 3

/-- `f64::is_nan` on a bit pattern: exponent all ones, mantissa nonzero. -/
def floatIsNaN (bits : Nat) : Bool :=
  (bits / 2 ^ 52) % 2 ^ 11 = 2 ^ 11 - 1 && bits % 2 ^ 52 ≠ 0

/-- IEEE-754 `f64` equality on bit patterns: NaN equals nothing, the two
zeros (+0.0 and -0.0) are equal, otherwise bit patterns must coincide. -/
def floatEqBits (x y : Nat) : Bool :=
  if floatIsNaN x || floatIsNaN y then false
  else if x % 2 ^ 63 = 0 && y % 2 ^ 63 = 0 then true
  else x = y

mutual

/-- The number of `Value` nodes reachable from a value through table
contents; an upper bound on the recursion depth of `PartialEq`. -/
def valueSize : Value → Nat
  | .table _ a1 m1 => 1 + valueListSize a1 + valueMapSize m1
  | _ => 1

def valueListSize : List Value → Nat
  | [] => 0
  | x :: xs => valueSize x + valueListSize xs

def valueMapSize : List (Value × Value) → Nat
  | [] => 0
  | e :: xs => valueSize e.1 + valueSize e.2 + valueMapSize xs

end

/-- Fuel-indexed body of `impl PartialEq for Value` from src/value.rs.
Strings compare only within the same tier, by their length-prefixed
content; floats use `f64` equality; functions compare by pointer.  Tables
(`(Table(l), Table(r)) => l == r` on `Rc<RefCell<Table>>`) compare **by
contents**: the derived `PartialEq for Table` compares the `Vec` part
elementwise and the `HashMap` part as "same length, and every entry of the
left map is found under an equal key in the right map with an equal value"
(`HashMap::get` is modelled as a linear search by key equality; the
hash-bucket pruning of a real lookup is not modelled — the two differ only
for keys that themselves violate `Hash`/`Eq` consistency).  The fuel only
bounds descent into table contents; `valueEq` passes `valueSize a + 1`,
which strictly exceeds every chain of nested contents of `a`, so the
zero-fuel arm is never reached. -/
def valueEqF : Nat → Value → Value → Bool
  | 0, _, _ => false
  | fuel + 1, a, b =>
    match a, b with
    | .nil, .nil => true
    | .boolean l, .boolean r => l == r
    | .integer l, .integer r => l == r
    | .float l, .float r => floatEqBits l r
    | .shortStr ll sl, .shortStr lr sr => sl.take ll == sr.take lr
    | .midStr ll sl, .midStr lr sr => sl.take ll == sr.take lr
    | .longStr l, .longStr r => l == r
    | .table _ a1 m1, .table _ a2 m2 =>
      (a1.length == a2.length &&
        (a1.zip a2).all fun p => valueEqF fuel p.1 p.2) &&
      (m1.length == m2.length && m1.all fun e =>
        match m2.find? fun e2 => valueEqF fuel e.1 e2.1 with
        | some e2 => valueEqF fuel e.2 e2.2
        | none => false)
    | .function l, .function r => l == r
    | _, _ => false

/-- `impl PartialEq for Value` from src/value.rs (see `valueEqF`). -/
def valueEq (a b : Value) : Bool := valueEqF (valueSize a + 1) a b

/-- The `u64` two's-complement image of an `i64`, as hashed by `i64::hash`. -/
def uint64OfInt (i : Int) : Nat := (i % (2 ^ 64 : Int)).toNat

/-- `Hash for [u8]`: a length prefix followed by the bytes. -/
def sliceHash (bytes : List Nat) : List Nat := bytes.length :: bytes

/-- `impl Hash for Value` from src/value.rs, modelled as the stream of words
written to the hasher: floats hash their `to_bits()` pattern, strings their
content slice, tables only their `Rc::as_ptr` address (the contents are not
hashed), functions their pointer. -/
def valueHash : Value → List Nat
  | .nil => []
  | .boolean b => [cond b 1 0]
  | .integer i => [uint64OfInt i]
  | .float bits => [bits]
  | .shortStr len buf => sliceHash (buf.take len)
  | .midStr len buf => sliceHash (buf.take len)
  | .longStr s => sliceHash s
  | .table a _ _ => [a]
  | .function f => [f]

/-- The bytes of an ASCII Lean string, modelling Rust `&str` / `String`. -/
def strBytes (s : String) : List Nat := s.data.map Char.toNat

def Value.isFloat : Value → Bool
  | .float _ => true
  | _ => false

def Value.isTable : Value → Bool
  | .table _ _ _ => true
  | _ => false

def Value.isFunction : Value → Bool
  | .function _ => true
  | _ => false

/-! ## Tokens and lexer (src/lex.rs)

The lexer is written with the `combine` parser-combinator library.  The
embedding models a combinator as a function from the input byte list to a
result carrying `combine`'s consumed/empty distinction, which drives both
`choice` (an alternative is tried only when the previous one failed without
consuming) and `attempt` (convert a consuming failure into a non-consuming
one). -/

/-- `enum Token` from src/lex.rs.  `float` carries the literal's numeric
value as a rational (the decimal denoted by the recognized digits; the
`f64` rounding performed by Rust's `from_str` is applied when the compiler
materializes the value, see `f64OfRat`). -/
inductive Token where
  | And | Break | Do | Else | Elseif | End | False | For | Function | Goto
  | If | In | Local | Nil | Not | Or | Repeat | Return | Then | True
  | Until | While
  | Add | Sub | Mul | Div | Mod | Pow | Len
  | BitAnd | BitXor | BitOr | ShiftL | ShiftR | Idiv
  | Equal | NotEq | LesEq | GreEq | Less | Greater | Assign
  | ParL | ParR | CurlyL | CurlyR | SqurL | SqurR
  | DoubColon | SemiColon | Colon | Comma | Dot | Concat | Dots
  | integer (i : Int)
  | float (q : ℚ)
  | string (s : List Nat)
  | name (s : List Nat)
  | Eos

/-- Injective numeric encoding of tokens, giving the decidable equality the
derived `PartialEq` provides in the source (constructor tag plus payload). -/
def Token.enc : Token → Nat × Int × ℚ × List Nat
  | .And => (0, 0, 0, [])
  | .Break => (1, 0, 0, [])
  | .Do => (2, 0, 0, [])
  | .Else => (3, 0, 0, [])
  | .Elseif => (4, 0, 0, [])
  | .End => (5, 0, 0, [])
  | .False => (6, 0, 0, [])
  | .For => (7, 0, 0, [])
  | .Function => (8, 0, 0, [])
  | .Goto => (9, 0, 0, [])
  | .If => (10, 0, 0, [])
  | .In => (11, 0, 0, [])
  | .Local => (12, 0, 0, [])
  | .Nil => (13, 0, 0, [])
  | .Not => (14, 0, 0, [])
  | .Or => (15, 0, 0, [])
  | .Repeat => (16, 0, 0, [])
  | .Return => (17, 0, 0, [])
  | .Then => (18, 0, 0, [])
  | .True => (19, 0, 0, [])
  | .Until => (20, 0, 0, [])
  | .While => (21, 0, 0, [])
  | .Add => (22, 0, 0, [])
  | .Sub => (23, 0, 0, [])
  | .Mul => (24, 0, 0, [])
  | .Div => (25, 0, 0, [])
  | .Mod => (26, 0, 0, [])
  | .Pow => (27, 0, 0, [])
  | .Len => (28, 0, 0, [])
  | .BitAnd => (29, 0, 0, [])
  | .BitXor => (30, 0, 0, [])
  | .BitOr => (31, 0, 0, [])
  | .ShiftL => (32, 0, 0, [])
  | .ShiftR => (33, 0, 0, [])
  | .Idiv => (34, 0, 0, [])
  | .Equal => (35, 0, 0, [])
  | .NotEq => (36, 0, 0, [])
  | .LesEq => (37, 0, 0, [])
  | .GreEq => (38, 0, 0, [])
  | .Less => (39, 0, 0, [])
  | .Greater => (40, 0, 0, [])
  | .Assign => (41, 0, 0, [])
  | .ParL => (42, 0, 0, [])
  | .ParR => (43, 0, 0, [])
  | .CurlyL => (44, 0, 0, [])
  | .CurlyR => (45, 0, 0, [])
  | .SqurL => (46, 0, 0, [])
  | .SqurR => (47, 0, 0, [])
  | .DoubColon => (48, 0, 0, [])
  | .SemiColon => (49, 0, 0, [])
  | .Colon => (50, 0, 0, [])
  | .Comma => (51, 0, 0, [])
  | .Dot => (52, 0, 0, [])
  | .Concat => (53, 0, 0, [])
  | .Dots => (54, 0, 0, [])
  | .integer i => (55, i, 0, [])
  | .float q => (56, 0, q, [])
  | .string s => (57, 0, 0, s)
  | .name s => (58, 0, 0, s)
  | .Eos => (59, 0, 0, [])

set_option maxHeartbeats 4000000 in
instance : DecidableEq Token := fun a b =>
  decidable_of_iff (Token.enc a = Token.enc b)
    (by
      constructor
      · intro h
        cases a <;> cases b <;> simp_all [Token.enc]
      · intro h
        rw [h])

/-- Result of running a combinator: success or failure, each tagged with
whether input was consumed (combine's `Consumed`/`Empty` distinction). -/
inductive PRes (α : Type) where
  | ok (consumed : Bool) (val : α) (rest : List Nat)
  | err (consumed : Bool)
deriving DecidableEq

/-- A parser over a byte stream. -/
def Pc (α : Type) : Type := List Nat → PRes α

/-- `combine::token(b)`: match one exact byte. -/
def pTokenB (b : Nat) : Pc Nat := fun input =>
  match input with
  | c :: rest => if c = b then .ok true c rest else .err false
  | [] => .err false

/-- `combine::satisfy(p)`: match one byte passing the predicate. -/
def pSatisfy (p : Nat → Bool) : Pc Nat := fun input =>
  match input with
  | c :: rest => if p c then .ok true c rest else .err false
  | [] => .err false

/-- `combine::parser::byte::bytes(s)`: match the literal byte sequence;
fails consuming when a later byte mismatches. -/
def pBytesGo (s : List Nat) (input : List Nat) (consumed : Bool) : PRes Unit :=
  match s with
  | [] => .ok consumed () input
  | b :: bs =>
    match input with
    | c :: rest => if c = b then pBytesGo bs rest true else .err consumed
    | [] => .err consumed

def pBytes (s : List Nat) : Pc Unit := fun input => pBytesGo s input false

/-- `attempt`: a failure never counts as consuming. -/
def pAttempt (p : Pc α) : Pc α := fun input =>
  match p input with
  | .err _ => .err false
  | r => r

/-- `Parser::map`. -/
def pMap (f : α → β) (p : Pc α) : Pc β := fun input =>
  match p input with
  | .ok c a rest => .ok c (f a) rest
  | .err c => .err c

/-- Sequencing with consumed-flag accumulation (`(p, q)` tuples, `with`,
`skip`, `between` all reduce to this). -/
def pThen (p : Pc α) (q : α → Pc β) : Pc β := fun input =>
  match p input with
  | .err c => .err c
  | .ok c a rest =>
    match q a rest with
    | .err c2 => .err (c || c2)
    | .ok c2 b rest2 => .ok (c || c2) b rest2

/-- `p.or(q)` / `choice`: try `q` only if `p` failed without consuming. -/
def pOr (p q : Pc α) : Pc α := fun input =>
  match p input with
  | .err false => q input
  | r => r

/-- `combine::many`: zero or more repetitions; a repetition that fails after
consuming fails the whole `many`.  Fueled by the remaining input length
(every parser passed to `many` here consumes on success). -/
def pManyGo (p : Pc α) : Nat → List Nat → PRes (List α)
  | 0, _ => .err true
  | fuel + 1, input =>
    match p input with
    | .err false => .ok false [] input
    | .err true => .err true
    | .ok c a rest =>
      match pManyGo p fuel rest with
      | .ok c2 as rest2 => .ok (c || c2) (a :: as) rest2
      | .err c2 => .err (c || c2)

def pMany (p : Pc α) : Pc (List α) := fun input =>
  pManyGo p (input.length + 1) input

/-- `combine::many1`. -/
def pMany1 (p : Pc α) : Pc (List α) :=
  pThen p fun a => pMap (fun as => a :: as) (pMany p)

/-- `combine::parser::combinator::recognize`: run the parser and return the
consumed input prefix. -/
def pRecognize (p : Pc α) : Pc (List Nat) := fun input =>
  match p input with
  | .ok c _ rest => .ok c (input.take (input.length - rest.length)) rest
  | .err c => .err c

/-- `combine::eof`. -/
def pEof : Pc Unit := fun input =>
  match input with
  | [] => .ok false () []
  | _ => .err false

/-- `u8::is_ascii_whitespace`: space, tab, newline, form feed, carriage
return. -/
def isSpaceByte (c : Nat) : Bool :=
  c = 32 || c = 9 || c = 10 || c = 12 || c = 13

/-- `combine::parser::byte::spaces` (skip_many of whitespace). -/
def pSpaces : Pc Unit := pMap (fun _ => ()) (pMany (pSatisfy isSpaceByte))

def isDigitByte (c : Nat) : Bool := 48 ≤ c && c ≤ 57

def isLetterByte (c : Nat) : Bool :=
  (65 ≤ c && c ≤ 90) || (97 ≤ c && c ≤ 122)

/-- `combine::parser::byte::digit` / `letter`. -/
def pDigit : Pc Nat := pSatisfy isDigitByte

def pLetter : Pc Nat := pSatisfy isLetterByte

/-- The numeric value of a digit-byte string. -/
def digitsToNat (ds : List Nat) : Nat :=
  ds.foldl (fun acc d => acc * 10 + (d - 48)) 0

/-- `keywords()` from src/lex.rs: the reserved words, attempted in source
order (`elseif` before `else`). -/
def keywordList : List (List Nat × Token) :=
  [ (strBytes "and", .And), (strBytes "break", .Break), (strBytes "do", .Do),
    (strBytes "elseif", .Elseif), (strBytes "else", .Else),
    (strBytes "end", .End), (strBytes "false", .False), (strBytes "for", .For),
    (strBytes "function", .Function), (strBytes "goto", .Goto),
    (strBytes "if", .If), (strBytes "in", .In), (strBytes "local", .Local),
    (strBytes "nil", .Nil), (strBytes "not", .Not), (strBytes "or", .Or),
    (strBytes "repeat", .Repeat), (strBytes "return", .Return),
    (strBytes "then", .Then), (strBytes "true", .True),
    (strBytes "until", .Until), (strBytes "while", .While) ]

def pKeywords : Pc Token :=
  keywordList.foldr
    (fun kw acc => pOr (pAttempt (pMap (fun _ => kw.2) (pBytes kw.1))) acc)
    (fun _ => .err false)

/-- `operators()` from src/lex.rs: `...` first, then the two-byte operators,
then the single-byte ones, in source order. -/
def twoByteOps : List (List Nat × Token) :=
  [ (strBytes "<<", .ShiftL), (strBytes ">>", .ShiftR),
    (strBytes "//", .Idiv), (strBytes "==", .Equal),
    (strBytes "~=", .NotEq), (strBytes "<=", .LesEq),
    (strBytes ">=", .GreEq), (strBytes "::", .DoubColon),
    (strBytes "..", .Concat) ]

def oneByteOps : List (Nat × Token) :=
  [ (43, .Add), (45, .Sub), (42, .Mul), (47, .Div), (37, .Mod), (94, .Pow),
    (35, .Len), (38, .BitAnd), (126, .BitXor), (124, .BitOr),
    (60, .Less), (62, .Greater), (61, .Assign),
    (40, .ParL), (41, .ParR), (123, .CurlyL), (125, .CurlyR),
    (91, .SqurL), (93, .SqurR), (59, .SemiColon), (58, .Colon),
    (44, .Comma), (46, .Dot) ]

def pOperators : Pc Token :=
  pOr (pAttempt (pMap (fun _ => Token.Dots) (pBytes (strBytes "..."))))
    (pOr
      (twoByteOps.foldr
        (fun op acc => pOr (pAttempt (pMap (fun _ => op.2) (pBytes op.1))) acc)
        (fun _ => .err false))
      (oneByteOps.foldr
        (fun op acc => pOr (pMap (fun _ => op.2) (pTokenB op.1)) acc)
        (fun _ => .err false)))

/-- `integer()` from src/lex.rs: `from_str(many1(digit()))` into an `i64`;
a literal exceeding `i64::MAX` makes `from_str` fail (after consuming). -/
def pInteger : Pc Token := fun input =>
  match pMany1 pDigit input with
  | .ok c ds rest =>
    let n := digitsToNat ds
    if n ≤ 2 ^ 63 - 1 then .ok c (.integer (n : Int)) rest else .err c
  | .err c => .err c

/-- The rational denoted by a recognized decimal literal `DIGITS . DIGITS`,
modelling the numeric value `from_str::<f64>` parses from it. -/
def ratOfDecimalBytes (s : List Nat) : ℚ :=
  let ip := s.takeWhile (fun c => c != 46)
  let fp := (s.dropWhile (fun c => c != 46)).drop 1
  (digitsToNat ip : ℚ) + (digitsToNat fp : ℚ) / (10 : ℚ) ^ fp.length

/-- `float()` from src/lex.rs: recognize `many1(digit()) '.' many1(digit())`
and read the recognized text as a number; note the mandatory digit after the
dot. -/
def pFloat : Pc Token :=
  pMap (fun s => Token.float (ratOfDecimalBytes s))
    (pRecognize
      (pThen (pMany1 pDigit) fun _ =>
        pThen (pTokenB 46) fun _ => pMany1 pDigit))

/-- `name` inside `lua_token()`: a letter followed by letters and digits. -/
def pName : Pc Token :=
  pMap (fun s => Token.name s)
    (pRecognize
      (pThen pLetter fun _ => pMany (pOr pLetter pDigit)))

/-- `string` inside `lua_token()`: `"`-delimited, no escapes, delimiters
consumed and excluded. -/
def pString : Pc Token :=
  pThen (pTokenB 34) fun _ =>
    pThen (pMany (pSatisfy (fun c => c != 34))) fun s =>
      pMap (fun _ => Token.string s) (pTokenB 34)

/-- `lua_token()` from src/lex.rs: skip whitespace, then try keywords,
operators, `attempt(float)`, integer, name, string, end-of-stream in that
order. -/
def lua_token : Pc Token :=
  pThen pSpaces fun _ =>
    pOr pKeywords
      (pOr pOperators
        (pOr (pAttempt pFloat)
          (pOr pInteger
            (pOr pName
              (pOr pString
                (pMap (fun _ => Token.Eos) pEof))))))

/-- Compile-time errors (`anyhow` errors raised in src/lex.rs and
src/parse.rs).  `outOfFuel` is the embedding's artefact for the fuel of the
statement loop and never occurs for adequate fuel. -/
inductive CompileErr where
  | parseFailed
  | unexpectedToken
  | expectedVariable
  | expectedAssign
  | expectedParR
  | expectedString
  | invalidArgument
  | outOfFuel
deriving DecidableEq

/-- `struct Lex` from src/lex.rs: the remaining input plus the one-token
lookahead buffer (`ahead`, `Token::Eos` when empty). -/
structure Lex where
  input : List Nat
  ahead : Token
deriving DecidableEq

def Lex.new (input : List Nat) : Lex := ⟨input, .Eos⟩

/-- `Lex::do_next`: run `lua_token` on the remaining input. -/
def Lex.doNext (l : Lex) : Except CompileErr (Token × Lex) :=
  match lua_token l.input with
  | .ok _ t rest => .ok (t, { l with input := rest })
  | .err _ => .error .parseFailed

/-- `Lex::next`: return the buffered token if any, else lex one. -/
def Lex.next (l : Lex) : Except CompileErr (Token × Lex) :=
  if l.ahead = .Eos then l.doNext
  else .ok (l.ahead, { l with ahead := .Eos })

/-- `Lex::peek`: lex one token into the buffer if it is empty. -/
def Lex.peek (l : Lex) : Except CompileErr (Token × Lex) :=
  if l.ahead = .Eos then
    match l.doNext with
    | .ok (t, l2) => .ok (t, { l2 with ahead := t })
    | .error e => .error e
  else .ok (l.ahead, l)

/-- Tokenize a whole input: run `lua_token` until `Eos` (fueled by the input
length; `none` models a lex failure). -/
def tokenizeGo : Nat → List Nat → Option (List Token)
  | 0, _ => none
  | fuel + 1, input =>
    match lua_token input with
    | .err _ => none
    | .ok _ .Eos _ => some [.Eos]
    | .ok _ t rest => (tokenizeGo fuel rest).map (fun ts => t :: ts)

def tokenize (input : List Nat) : Option (List Token) :=
  tokenizeGo (input.length + 1) input

/-! ## Bytecode and compiler (src/parse.rs) -/

/-- Modelled from the spec: `enum ByteCode` lives in src/bytecode.rs, which is
not among the provided sources; the variants and their operand widths are
reconstructed from the spec's instruction table (§4.3) and from every
construction/match site in src/parse.rs and src/vm.rs.  Register and constant
operands are `u8` (the compiler casts with `as u8`, modelled as `% 256`);
`LoadInt` carries an `i16`. -/
inductive ByteCode where
  | GetGlobal (dst k : Nat)
  | LoadConst (dst k : Nat)
  | LoadNil (dst : Nat)
  | LoadBool (dst : Nat) (b : Bool)
  | LoadInt (dst : Nat) (i : Int)
  | Move (dst src : Nat)
  | Call (func argc : Nat)
  | SetGlobalConst (name src : Nat)
  | SetGlobal (name src : Nat)
  | SetGlobalGlobal (name src : Nat)
deriving DecidableEq

/-- `usize as u8`. -/
def asU8 (n : Nat) : Nat := n % 256

/-- `struct ParseProto`: the compiled program. -/
structure ParseProto where
  constants : List Value
  byte_codes : List ByteCode

/-- `struct ParseProtoBuilder` from src/parse.rs: compiler state. -/
structure ParseProtoBuilder where
  constants : List Value
  byte_codes : List ByteCode
  locals : List (List Nat)
  lex : Lex

def ParseProtoBuilder.new (input : List Nat) : ParseProtoBuilder :=
  ⟨[], [], [], Lex.new input⟩

/-- Round `a / b` to the nearest integer, ties to even (`b > 0`). -/
def rdiv (a b : Nat) : Nat :=
  let q := a / b
  let r := a % b
  if b < 2 * r then q + 1
  else if 2 * r = b ∧ q % 2 = 1 then q + 1
  else q

/-- `floor (log2 (n / d))` for positive naturals, via an adjusted bit-length
candidate. -/
def floorLog2Rat (n d : Nat) : Int :=
  let c : Int := (Nat.log2 n : Int) - (Nat.log2 d : Int)
  let le2 : Int → Bool := fun e =>
    if 0 ≤ e then decide (2 ^ e.toNat * d ≤ n) else decide (d ≤ n * 2 ^ (-e).toNat)
  if le2 (c + 1) then c + 1 else if le2 c then c else c - 1

/-- Modelled from the spec: the numeric value of a float literal is obtained
by Rust's `from_str::<f64>` (src/lex.rs), i.e. the binary64 nearest the
decimal; this computes that bit pattern for the nonnegative rationals the
lexer produces (round to nearest, ties to even, with subnormal and infinity
handling). -/
def f64OfRat (q : ℚ) : Nat :=
  if q ≤ 0 then 0
  else
    let n := q.num.toNat
    let d := q.den
    let e := floorLog2Rat n d
    let sh : Int := 52 - e
    let mant := if 0 ≤ sh then rdiv (n * 2 ^ sh.toNat) d else rdiv n (d * 2 ^ (-sh).toNat)
    let e := if mant = 2 ^ 53 then e + 1 else e
    let mant := if mant = 2 ^ 53 then 2 ^ 52 else mant
    let biased : Int := e + 1023
    if 2047 ≤ biased then 2047 * 2 ^ 52
    else if biased ≤ 0 then rdiv (n * 2 ^ 1074) d
    else biased.toNat * 2 ^ 52 + (mant - 2 ^ 52)

/-- The runtime `Value` of a literal token (the compiler's
`Value::String(..)` etc. go through the tiered constructor). -/
def Value.ofFloatLit (q : ℚ) : Value := .float (f64OfRat q)

/-- `ParseProtoBuilder::add_const`: return the index of the first
structurally-equal constant, appending the value only when none exists. -/
def addConst (b : ParseProtoBuilder) (c : Value) : Nat × ParseProtoBuilder :=
  match b.constants.findIdx? (fun v => valueEq v c) with
  | some i => (i, b)
  | none => (b.constants.length, { b with constants := b.constants ++ [c] })

/-- `ParseProtoBuilder::load_const`. -/
def loadConst (b : ParseProtoBuilder) (dst : Nat) (c : Value) :
    ByteCode × ParseProtoBuilder :=
  let r := addConst b c
  (.LoadConst (asU8 dst) (asU8 r.1), r.2)

/-- `Vec::rposition`: index of the last matching element. -/
def rposition : List (List Nat) → List Nat → Option Nat
  | [], _ => none
  | x :: xs, name =>
    match rposition xs name with
    | some i => some (i + 1)
    | none => if x = name then some 0 else none

/-- `ParseProtoBuilder::get_local`. -/
def getLocal (b : ParseProtoBuilder) (name : List Nat) : Option Nat :=
  rposition b.locals name

/-- `ParseProtoBuilder::load_var`: a known local becomes a register move, an
unknown name a global load keyed by an interned constant. -/
def loadVar (b : ParseProtoBuilder) (dst : Nat) (name : List Nat) :
    ByteCode × ParseProtoBuilder :=
  match getLocal b name with
  | some i => (.Move (asU8 dst) (asU8 i), b)
  | none =>
    let r := addConst b (Value.ofBytes name)
    (.GetGlobal (asU8 dst) (asU8 r.1), r.2)

def emit (b : ParseProtoBuilder) (code : ByteCode) : ParseProtoBuilder :=
  { b with byte_codes := b.byte_codes ++ [code] }

/-- `ParseProtoBuilder::load_exp`: compile one expression into register
`dst`; an integer fitting `i16` becomes an immediate `LoadInt`, otherwise it
is folded into the constant pool. -/
def loadExp (b : ParseProtoBuilder) (dst : Nat) :
    Except CompileErr ParseProtoBuilder :=
  match b.lex.next with
  | .error e => .error e
  | .ok (t, lex2) =>
    let b := { b with lex := lex2 }
    match t with
    | .Nil => .ok (emit b (.LoadNil (asU8 dst)))
    | .True => .ok (emit b (.LoadBool (asU8 dst) true))
    | .False => .ok (emit b (.LoadBool (asU8 dst) false))
    | .integer i =>
      if -(2 ^ 15 : Int) ≤ i ∧ i < 2 ^ 15 then
        .ok (emit b (.LoadInt (asU8 dst) i))
      else
        let r := loadConst b dst (.integer i)
        .ok (emit r.2 r.1)
    | .float q =>
      let r := loadConst b dst (Value.ofFloatLit q)
      .ok (emit r.2 r.1)
    | .string s =>
      let r := loadConst b dst (Value.ofBytes s)
      .ok (emit r.2 r.1)
    | .name v =>
      let r := loadVar b dst v
      .ok (emit r.2 r.1)
    | _ => .error .invalidArgument

/-- `ParseProtoBuilder::local`: `local NAME = EXPR` — the initializer is
compiled into register `locals.len()` first, and only then is the name
appended to the local list. -/
def localStmt (b : ParseProtoBuilder) : Except CompileErr ParseProtoBuilder :=
  match b.lex.next with
  | .error e => .error e
  | .ok (t, lex2) =>
    let b := { b with lex := lex2 }
    match t with
    | .name var =>
      (match b.lex.next with
      | .error e => .error e
      | .ok (t2, lex3) =>
        let b := { b with lex := lex3 }
        if t2 ≠ .Assign then .error .expectedAssign
        else
          match loadExp b b.locals.length with
          | .error e => .error e
          | .ok b2 => .ok { b2 with locals := b2.locals ++ [var] })
    | _ => .error .expectedVariable

/-- `ParseProtoBuilder::function_call`: load the callee into the next free
register, then a parenthesized expression or bare string literal into the
following one, then emit `Call`. -/
def functionCall (b : ParseProtoBuilder) (name : List Nat) :
    Except CompileErr ParseProtoBuilder :=
  let r := loadVar b b.locals.length name
  let b := emit r.2 r.1
  match b.lex.next with
  | .error e => .error e
  | .ok (t, lex2) =>
    let b := { b with lex := lex2 }
    match t with
    | .ParL =>
      (match loadExp b (b.locals.length + 1) with
      | .error e => .error e
      | .ok b2 =>
        match b2.lex.next with
        | .error e => .error e
        | .ok (t2, lex3) =>
          let b3 := { b2 with lex := lex3 }
          if t2 ≠ .ParR then .error .expectedParR
          else .ok (emit b3 (.Call (asU8 b3.locals.length) 1)))
    | .string s =>
      let r2 := loadConst b (b.locals.length + 1) (Value.ofBytes s)
      let b2 := emit r2.2 r2.1
      .ok (emit b2 (.Call (asU8 b2.locals.length) 1))
    | _ => .error .expectedString

/-- `ParseProtoBuilder::assignment`: `VAR = ...` — a local target compiles
the right-hand side into its register; a global target interns the name and
emits one of the three global stores. -/
def assignment (b : ParseProtoBuilder) (var : List Nat) :
    Except CompileErr ParseProtoBuilder :=
  match b.lex.next with
  | .error e => .error e
  | .ok (_, lex2) =>
    let b := { b with lex := lex2 }
    match getLocal b var with
    | some i => loadExp b i
    | none =>
      let r := addConst b (Value.ofBytes var)
      let dst := asU8 r.1
      let b := r.2
      match b.lex.next with
      | .error e => .error e
      | .ok (t, lex3) =>
        let b := { b with lex := lex3 }
        match t with
        | .Nil =>
          let r2 := addConst b .nil
          .ok (emit r2.2 (.SetGlobalConst dst (asU8 r2.1)))
        | .True =>
          let r2 := addConst b (.boolean true)
          .ok (emit r2.2 (.SetGlobalConst dst (asU8 r2.1)))
        | .False =>
          let r2 := addConst b (.boolean false)
          .ok (emit r2.2 (.SetGlobalConst dst (asU8 r2.1)))
        | .integer i =>
          let r2 := addConst b (.integer i)
          .ok (emit r2.2 (.SetGlobalConst dst (asU8 r2.1)))
        | .float f =>
          let r2 := addConst b (Value.ofFloatLit f)
          .ok (emit r2.2 (.SetGlobalConst dst (asU8 r2.1)))
        | .string s =>
          let r2 := addConst b (Value.ofBytes s)
          .ok (emit r2.2 (.SetGlobalConst dst (asU8 r2.1)))
        | .name var2 =>
          (match getLocal b var2 with
          | some i => .ok (emit b (.SetGlobal dst (asU8 i)))
          | none =>
            let r2 := addConst b (Value.ofBytes var2)
            .ok (emit r2.2 (.SetGlobalGlobal dst (asU8 r2.1))))
        | _ => .error .invalidArgument

/-- The statement loop of `ParseProtoBuilder::load`, fueled (each iteration
of the source loop consumes input, so `input.length + 1` iterations always
suffice). -/
def loadLoop : Nat → ParseProtoBuilder → Except CompileErr ParseProtoBuilder
  | 0, _ => .error .outOfFuel
  | fuel + 1, b =>
    match b.lex.next with
    | .error e => .error e
    | .ok (t, lex2) =>
      let b := { b with lex := lex2 }
      match t with
      | .name name =>
        (match b.lex.peek with
        | .error e => .error e
        | .ok (pk, lexP) =>
          let b := { b with lex := lexP }
          match (if pk = .Assign then assignment b name else functionCall b name) with
          | .error e => .error e
          | .ok b2 => loadLoop fuel b2)
      | .Local =>
        (match localStmt b with
        | .error e => .error e
        | .ok b2 => loadLoop fuel b2)
      | .Eos => .ok b
      | _ => .error .unexpectedToken

/-- `ParseProtoBuilder::load` / `ParseProto::load`: compile a whole source
buffer into a program. -/
def ParseProto.load (input : List Nat) : Except CompileErr ParseProto :=
  match loadLoop (input.length + 1) (ParseProtoBuilder.new input) with
  | .error e => .error e
  | .ok b => .ok ⟨b.constants, b.byte_codes⟩

/-! ## Virtual machine (src/vm.rs)

Runtime failures come in two kinds that the embedding keeps apart: errors the
Rust code *returns* (`bail!` / `?`, i.e. an `anyhow::Error` carried in the
`Result`) and panics (out-of-bounds slice indexing, which aborts the process
and is not a recoverable error value). -/

/-- Recoverable runtime errors (`anyhow` errors returned by `execute`). -/
inductive RtErr where
  | invalidFunction (v : Value)
  | constIndexOutOfBounds
  | constantNotAVariable
  | notAString

/-- Outcome kinds of a VM step: a returned error versus a Rust panic. -/
inductive VMErr where
  | rt (e : RtErr)
  | panic

/-- `struct ExeState`: globals map, register stack and current call base.
`output` models the bytes `lib_print` sends to stdout, recorded as the
printed values. -/
structure ExeState where
  globals : List (List Nat × Value)
  stack : List Value
  func_index : Nat
  output : List Value

/-- `HashMap::get`. -/
def mapGet (m : List (List Nat × Value)) (k : List Nat) : Option Value :=
  (m.find? (fun p => p.1 = k)).map (fun p => p.2)

/-- `HashMap::insert`: replace the value under an existing key, otherwise
add the binding. -/
def mapInsert (m : List (List Nat × Value)) (k : List Nat) (v : Value) :
    List (List Nat × Value) :=
  if m.any (fun p => p.1 = k) then
    m.map (fun p => if p.1 = k then (k, v) else p)
  else m ++ [(k, v)]

/-- `ExeState::new`: fresh state with `print` pre-registered. -/
def ExeState.new : ExeState :=
  ⟨[(strBytes "print", .function 0)], [], 0, []⟩

/-- `ExeState::set_stack`: grow the stack with `Nil` up to `dst + 1` slots if
needed, then write — stack writes never fail. -/
def setStack (st : ExeState) (dst : Nat) (v : Value) : ExeState :=
  let stack :=
    if st.stack.length ≤ dst then
      st.stack ++ List.replicate (dst + 1 - st.stack.length) .nil
    else st.stack
  { st with stack := stack.set dst v }

/-- `ParseProto::get_global` from src/parse.rs: bounds-checked constant
lookup (`.get(index).context(..)?`) followed by the string check — both
failures are returned errors, not panics. -/
def ParseProto.getGlobal (p : ParseProto) (index : Nat) :
    Except VMErr (List Nat) :=
  match p.constants.get? index with
  | none => .error (.rt .constIndexOutOfBounds)
  | some v =>
    match v.asBytes? with
    | some s => .ok s
    | none => .error (.rt .constantNotAVariable)

/-- `lib_print` from src/vm.rs: print the value in the register after the
call base (direct indexing — out of bounds panics). -/
def lib_print (st : ExeState) : Except VMErr ExeState :=
  match st.stack.get? (st.func_index + 1) with
  | none => .error .panic
  | some v => .ok { st with output := st.output ++ [v] }

/-- Dispatch of a `Value::Function` pointer: id 0 is `lib_print`, the only
native function the program ever holds. -/
def callNative (fid : Nat) (st : ExeState) : Except VMErr ExeState :=
  match fid with
  | 0 => lib_print st
  | _ => .ok st

/-- One instruction of `ExeState::execute`.  `constants[i]` / `stack[i]`
(direct indexing) panic when out of bounds; `get_global`-mediated accesses
return errors. -/
def stepInstr (proto : ParseProto) (st : ExeState) :
    ByteCode → Except VMErr ExeState
  | .GetGlobal dst name =>
    match proto.constants.get? name with
    | none => .error .panic
    | some nv =>
      match nv.asBytes? with
      | none => .error (.rt .notAString)
      | some key =>
        let v := (mapGet st.globals key).getD .nil
        .ok (setStack st dst v)
  | .LoadConst dst c =>
    match proto.constants.get? c with
    | none => .error .panic
    | some v => .ok (setStack st dst v)
  | .Call func _ =>
    let st := { st with func_index := func }
    match st.stack.get? func with
    | none => .error .panic
    | some v =>
      match v with
      | .function f => callNative f st
      | _ => .error (.rt (.invalidFunction v))
  | .LoadNil dst => .ok (setStack st dst .nil)
  | .LoadBool dst b => .ok (setStack st dst (.boolean b))
  | .LoadInt dst i => .ok (setStack st dst (.integer i))
  | .Move dst src =>
    match st.stack.get? src with
    | none => .error .panic
    | some v => .ok (setStack st dst v)
  | .SetGlobalConst dst src =>
    (match proto.getGlobal dst with
    | .error e => .error e
    | .ok var =>
      match proto.constants.get? src with
      | none => .error .panic
      | some v => .ok { st with globals := mapInsert st.globals var v })
  | .SetGlobal dst src =>
    (match proto.getGlobal dst with
    | .error e => .error e
    | .ok var =>
      match st.stack.get? src with
      | none => .error .panic
      | some v => .ok { st with globals := mapInsert st.globals var v })
  | .SetGlobalGlobal dst src =>
    (match proto.getGlobal dst with
    | .error e => .error e
    | .ok dstVar =>
      match proto.getGlobal src with
      | .error e => .error e
      | .ok srcVar =>
        let v := (mapGet st.globals srcVar).getD .nil
        .ok { st with globals := mapInsert st.globals dstVar v })

/-- `ExeState::execute`: run the instruction sequence top to bottom,
stopping at the first error. -/
def execute (proto : ParseProto) (st : ExeState) : Except VMErr ExeState :=
  proto.byte_codes.foldlM (fun s c => stepInstr proto s c) st

/-- Compile and run a source buffer from a fresh state (the `main.rs`
pipeline). -/
def run (input : List Nat) : Except CompileErr (Except VMErr ExeState) :=
  match ParseProto.load input with
  | .error e => .error e
  | .ok proto => .ok (execute proto ExeState.new)

/-- The constant pool contains no two structurally-equal entries (in either
order, `valueEq` deciding structural equality). -/
def PoolOk (cs : List Value) : Prop :=
  cs.Pairwise (fun a b => valueEq a b = false)

/-- How one compilation step may change the pool: it only appends, and it
keeps the no-duplicates invariant. -/
def PoolExt (cs cs2 : List Value) : Prop :=
  cs <+: cs2 ∧ (PoolOk cs → PoolOk cs2)

/-! ## Theorems -/

/-- C3: the string tier is selected solely by byte length at construction —
up to 14 bytes the inline `ShortStr` tier, 15 through 47 bytes the shared
fixed-buffer `MidStr` tier, 48 bytes and beyond the heap `LongStr` tier; in
particular exactly 14 bytes gives `ShortStr`, 15 and 47 give `MidStr`, and
48 gives `LongStr`. -/
theorem string_tier_by_length :
    (∀ s : List Nat, (Value.ofBytes s).strTier =
      if s.length ≤ 14 then 0 else if s.length ≤ 47 then 1 else 2) ∧
    (Value.ofBytes (List.replicate 14 97)).strTier = 0 ∧
    (Value.ofBytes (List.replicate 15 97)).strTier = 1 ∧
    (Value.ofBytes (List.replicate 47 97)).strTier = 1 ∧
    (Value.ofBytes (List.replicate 48 97)).strTier = 2 := by
  refine ⟨fun s => ?_, by decide, by decide, by decide, by decide⟩
  by_cases h1 : s.length ≤ 14 <;> by_cases h2 : s.length ≤ 47 <;>
    simp [Value.ofBytes, vec_to_short_mid_str, SHORT_STR_MAX, MID_STR_MAX,
      Value.strTier, h1, h2]

/-- C4: `Value` equality on strings is same-tier only — two string values
are equal exactly when they are of the same tier with equal byte content,
and cross-tier values are never equal even with identical content (shown
both in general and on the concrete content `hello` across the
`ShortStr`/`MidStr` pair). -/
theorem string_eq_same_tier_only :
    (∀ v w : Value, v.strTier ≤ 2 → w.strTier ≤ 2 →
      (valueEq v w = true ↔ v.strTier = w.strTier ∧ v.asBytes? = w.asBytes?)) ∧
    valueEq (Value.ofBytes (strBytes "hello"))
      (.midStr 5 (strBytes "hello" ++ List.replicate 42 0)) = false ∧
    (Value.ofBytes (strBytes "hello")).asBytes? =
      (Value.midStr 5 (strBytes "hello" ++ List.replicate 42 0)).asBytes? := by
  refine ⟨fun v w hv hw => ?_, by decide, by decide⟩
  cases v <;> cases w <;>
    simp_all [valueEq, valueEqF, Value.strTier, Value.asBytes?]

/-- Witness for `string_eq_same_tier_only` at a concrete same-tier pair. -/
theorem string_eq_same_tier_only_witness :
    valueEq (Value.shortStr 2 [104, 105, 0]) (Value.shortStr 2 [104, 105, 7])
        = true ↔
      (Value.shortStr 2 [104, 105, 0]).strTier =
          (Value.shortStr 2 [104, 105, 7]).strTier ∧
        (Value.shortStr 2 [104, 105, 0]).asBytes? =
          (Value.shortStr 2 [104, 105, 7]).asBytes? :=
  string_eq_same_tier_only.1 (Value.shortStr 2 [104, 105, 0])
    (Value.shortStr 2 [104, 105, 7]) (by decide) (by decide)

/-- C5: converting any byte sequence into a string `Value` and extracting
the content back recovers the bytes exactly, across all three tiers. -/
theorem string_roundtrip (s : List Nat) :
    (Value.ofBytes s).asBytes? = some s := by
  unfold Value.ofBytes vec_to_short_mid_str
  by_cases h1 : s.length ≤ SHORT_STR_MAX
  · simp [h1, Value.asBytes?, List.take_left']
  · by_cases h2 : s.length ≤ MID_STR_MAX <;>
      simp [h1, h2, Value.asBytes?, List.take_left']

/-- C9: tokenizing `123` yields `Integer(123)`; `123.45` yields the single
token `Float(123.45)`; `123.` yields `Integer(123)` followed by the
structural `Dot` — a literal is floating-point only when the dot is directly
followed by a digit. -/
theorem numeric_literal_tokenization :
    tokenize (strBytes "123") = some [.integer 123, .Eos] ∧
    tokenize (strBytes "123.45") = some [.float (123.45 : ℚ), .Eos] ∧
    tokenize (strBytes "123.") = some [.integer 123, .Dot, .Eos] := by
  refine ⟨by decide, ?_, by decide⟩
  have h1 : tokenize (strBytes "123.45") =
      some [.float (ratOfDecimalBytes (strBytes "123.45")), .Eos] := rfl
  have h : strBytes "123.45" = [49, 50, 51, 46, 52, 53] := by decide
  have hip : List.takeWhile (fun c => c != 46) [49, 50, 51, 46, 52, 53] =
      [49, 50, 51] := by decide
  have hfp : List.drop 1
      (List.dropWhile (fun c => c != 46) [49, 50, 51, 46, 52, 53]) =
      [52, 53] := by decide
  have hd1 : digitsToNat [49, 50, 51] = 123 := by decide
  have hd2 : digitsToNat [52, 53] = 45 := by decide
  rw [h1, h]
  simp only [ratOfDecimalBytes, hip, hfp, hd1, hd2]
  norm_num

/-- C10 counterexample: the claimed Eq/Hash consistency fails on the code
in two variants.  `Float(0.0)` and `Float(-0.0)` (bit patterns `0` and
`2^63`) compare equal under `PartialEq` (IEEE-754 equality) but their
`to_bits`-based hashes differ; and two `Table` handles to distinct
allocations (addresses 1 and 2) with equal contents compare equal (the
derived `PartialEq` compares the pointed-to contents) yet hash to the two
distinct addresses (`Rc::as_ptr`). -/
theorem eq_hash_mismatch_float_and_table :
    (valueEq (.float 0) (.float (2 ^ 63)) = true ∧
      valueHash (.float 0) ≠ valueHash (.float (2 ^ 63))) ∧
    (valueEq (.table 1 [.integer 3] []) (.table 2 [.integer 3] []) = true ∧
      valueHash (.table 1 [.integer 3] []) ≠
        valueHash (.table 2 [.integer 3] [])) := by decide

/-- C10 amended: equality implies hash agreement for every value that is
neither a `Float` nor a `Table` (`Nil`, booleans, integers, all three
string tiers, and functions compared by pointer); it fails for exactly the
two excluded variants: `Float`, where `0.0` and `-0.0` compare equal while
their bit-pattern hashes disagree, and `Table`, where contents-equal
handles to distinct allocations compare equal while hashing by address. -/
theorem eq_implies_hash_eq_except_float_table (a b : Value)
    (ha : a.isFloat = false) (ht : a.isTable = false)
    (heq : valueEq a b = true) : valueHash a = valueHash b := by
  cases a <;> cases b <;>
    simp_all [valueEq, valueEqF, valueHash, Value.isFloat, Value.isTable,
      sliceHash]

/-- Witness for `eq_implies_hash_eq_except_float_table` at two equal short
strings built from the same bytes. -/
theorem eq_implies_hash_eq_except_float_table_witness :
    (Value.ofBytes (strBytes "abc")).isFloat = false ∧
    (Value.ofBytes (strBytes "abc")).isTable = false ∧
    valueEq (Value.ofBytes (strBytes "abc")) (Value.ofBytes (strBytes "abc")) = true ∧
    valueHash (Value.ofBytes (strBytes "abc")) =
      valueHash (Value.ofBytes (strBytes "abc")) :=
  ⟨by decide, by decide, by decide,
    eq_implies_hash_eq_except_float_table _ _ (by decide) (by decide)
      (by decide)⟩

/-- C1: `GetGlobal` of an absent global name stores `Nil` into the
destination register; `Call` on a stack slot holding any non-function value
returns the `invalid function` runtime error naming that value; and the
whole pipeline on `foo(1)` (calling the never-assigned global `foo`)
returns that runtime error — no out-of-bounds access occurs. -/
theorem undefined_global_call_is_runtime_error :
    (∀ (proto : ParseProto) (st : ExeState) (dst k : Nat) (v : Value)
      (key : List Nat), proto.constants.get? k = some v →
      v.asBytes? = some key → mapGet st.globals key = none →
      stepInstr proto st (.GetGlobal dst k) = .ok (setStack st dst .nil)) ∧
    (∀ (proto : ParseProto) (st : ExeState) (f argc : Nat) (v : Value),
      st.stack.get? f = some v → v.isFunction = false →
      stepInstr proto st (.Call f argc) =
        .error (.rt (.invalidFunction v))) ∧
    run (strBytes "foo(1)") = .ok (.error (.rt (.invalidFunction .nil))) := by
  refine ⟨?_, ?_, rfl⟩
  · intro proto st dst k v key hk hv hg
    rw [List.get?_eq_getElem?] at hk
    simp [stepInstr, hk, hv, hg]
  · intro proto st f argc v hf hv
    rw [List.get?_eq_getElem?] at hf
    cases v <;> simp_all [stepInstr, Value.isFunction]

/-- Witness for `undefined_global_call_is_runtime_error`: the fresh state
holds no global `foo`, so `GetGlobal` yields `Nil` and calling it errors. -/
theorem undefined_global_call_is_runtime_error_witness :
    stepInstr ⟨[Value.ofBytes (strBytes "foo")], []⟩ ExeState.new
      (.GetGlobal 0 0) = .ok (setStack ExeState.new 0 .nil) ∧
    stepInstr ⟨[], []⟩ (setStack ExeState.new 0 .nil) (.Call 0 1) =
      .error (.rt (.invalidFunction .nil)) :=
  ⟨undefined_global_call_is_runtime_error.1 ⟨[Value.ofBytes (strBytes "foo")], []⟩
      ExeState.new 0 0 (Value.ofBytes (strBytes "foo")) (strBytes "foo")
      rfl (by decide) rfl,
    undefined_global_call_is_runtime_error.2.1 ⟨[], []⟩
      (setStack ExeState.new 0 .nil) 0 1 .nil rfl (by decide)⟩

/-- C2 counterexample: out-of-bounds constant-pool and stack indexing in
`GetGlobal`, `LoadConst`, `Move`, `Call`, and in the value/stack operands of
`SetGlobalConst` and `SetGlobal`, panics (aborts) instead of returning a
recoverable `RuntimeError`: each single-instruction program below hits an
out-of-bounds index and the outcome is a panic, not a returned error. -/
theorem index_oob_panics_counterexample :
    execute ⟨[], [.GetGlobal 0 0]⟩ ExeState.new = .error .panic ∧
    execute ⟨[], [.LoadConst 0 0]⟩ ExeState.new = .error .panic ∧
    execute ⟨[], [.Move 0 5]⟩ ExeState.new = .error .panic ∧
    execute ⟨[], [.Call 3 1]⟩ ExeState.new = .error .panic ∧
    execute ⟨[Value.ofBytes (strBytes "x")], [.SetGlobalConst 0 1]⟩
      ExeState.new = .error .panic ∧
    execute ⟨[Value.ofBytes (strBytes "x")], [.SetGlobal 0 5]⟩
      ExeState.new = .error .panic :=
  ⟨rfl, rfl, rfl, rfl, rfl, rfl⟩

/-- C2 amended: only the `get_global`-mediated constant accesses (the
global-name operands of `SetGlobalConst` and `SetGlobal`, and both operands
of `SetGlobalGlobal`) return a `RuntimeError` on an out-of-bounds index;
the direct constant reads of `GetGlobal` and `LoadConst`, the direct stack
reads of `Move` and `Call`, the constant value read of `SetGlobalConst` and
the stack read of `SetGlobal` panic instead. -/
theorem index_oob_amended :
    (∀ (p : ParseProto) (i : Nat), p.constants.length ≤ i →
      p.getGlobal i = .error (.rt .constIndexOutOfBounds)) ∧
    (∀ (p : ParseProto) (st : ExeState) (d s : Nat), p.constants.length ≤ d →
      stepInstr p st (.SetGlobalGlobal d s) =
        .error (.rt .constIndexOutOfBounds)) ∧
    (∀ (p : ParseProto) (st : ExeState) (d s : Nat) (v : Value)
      (key : List Nat), p.constants.get? d = some v →
      v.asBytes? = some key → p.constants.length ≤ s →
      stepInstr p st (.SetGlobalGlobal d s) =
        .error (.rt .constIndexOutOfBounds)) ∧
    (∀ (p : ParseProto) (st : ExeState) (d s : Nat), p.constants.length ≤ d →
      stepInstr p st (.SetGlobalConst d s) =
        .error (.rt .constIndexOutOfBounds)) ∧
    (∀ (p : ParseProto) (st : ExeState) (d s : Nat), p.constants.length ≤ d →
      stepInstr p st (.SetGlobal d s) =
        .error (.rt .constIndexOutOfBounds)) ∧
    (∀ (p : ParseProto) (st : ExeState) (d c : Nat), p.constants.length ≤ c →
      stepInstr p st (.LoadConst d c) = .error .panic) ∧
    (∀ (p : ParseProto) (st : ExeState) (d k : Nat), p.constants.length ≤ k →
      stepInstr p st (.GetGlobal d k) = .error .panic) ∧
    (∀ (p : ParseProto) (st : ExeState) (d s : Nat), st.stack.length ≤ s →
      stepInstr p st (.Move d s) = .error .panic) ∧
    (∀ (p : ParseProto) (st : ExeState) (f a : Nat), st.stack.length ≤ f →
      stepInstr p st (.Call f a) = .error .panic) ∧
    (∀ (p : ParseProto) (st : ExeState) (d s : Nat) (v : Value)
      (key : List Nat), p.constants.get? d = some v →
      v.asBytes? = some key → p.constants.length ≤ s →
      stepInstr p st (.SetGlobalConst d s) = .error .panic) ∧
    (∀ (p : ParseProto) (st : ExeState) (d s : Nat) (v : Value)
      (key : List Nat), p.constants.get? d = some v →
      v.asBytes? = some key → st.stack.length ≤ s →
      stepInstr p st (.SetGlobal d s) = .error .panic) := by
  have hgg : ∀ (p : ParseProto) (i : Nat), p.constants.length ≤ i →
      p.getGlobal i = .error (.rt .constIndexOutOfBounds) := by
    intro p i h
    simp [ParseProto.getGlobal, List.getElem?_eq_none h]
  have hok : ∀ (p : ParseProto) (d : Nat) (v : Value) (key : List Nat),
      p.constants.get? d = some v → v.asBytes? = some key →
      p.getGlobal d = .ok key := by
    intro p d v key hd hv
    rw [List.get?_eq_getElem?] at hd
    simp [ParseProto.getGlobal, hd, hv]
  refine ⟨hgg, ?_, ?_, ?_, ?_, ?_, ?_, ?_, ?_, ?_, ?_⟩
  · intro p st d s h
    simp [stepInstr, hgg p d h]
  · intro p st d s v key hd hv h
    simp [stepInstr, hok p d v key hd hv, hgg p s h]
  · intro p st d s h
    simp [stepInstr, hgg p d h]
  · intro p st d s h
    simp [stepInstr, hgg p d h]
  · intro p st d c h
    simp [stepInstr, List.getElem?_eq_none h]
  · intro p st d k h
    simp [stepInstr, List.getElem?_eq_none h]
  · intro p st d s h
    simp [stepInstr, List.getElem?_eq_none h]
  · intro p st f a h
    simp [stepInstr, List.getElem?_eq_none h]
  · intro p st d s v key hd hv h
    simp [stepInstr, hok p d v key hd hv, List.getElem?_eq_none h]
  · intro p st d s v key hd hv h
    simp [stepInstr, hok p d v key hd hv, List.getElem?_eq_none h]

/-- Only an `Integer` constant is structurally equal to an `Integer`. -/
theorem valueEq_integer_right (v : Value) (i : Int)
    (h : valueEq v (.integer i) = true) : v = .integer i := by
  cases v <;> simp_all [valueEq, valueEqF]

/-- What `add_const` leaves at the returned index: the pool entry there is
structurally equal to the requested constant (and is the constant itself
when it was not present before). -/
theorem addConst_get (b : ParseProtoBuilder) (c : Value) :
    ∃ v, (addConst b c).2.constants.get? (addConst b c).1 = some v ∧
      (valueEq v c = true ∨ v = c) := by
  unfold addConst
  cases h : b.constants.findIdx? (fun v => valueEq v c) with
  | some i =>
    rw [List.findIdx?_eq_some_iff_getElem] at h
    obtain ⟨hlt, hp, -⟩ := h
    exact ⟨b.constants[i], by simp [List.get?_eq_getElem?,
      List.getElem?_eq_getElem hlt], Or.inl hp⟩
  | none =>
    exact ⟨c, by simp [List.get?_eq_getElem?, List.getElem?_concat_length],
      Or.inr rfl⟩

/-- C7: an integer literal compiles to an immediate `LoadInt` exactly when
it fits the signed 16-bit range and to a constant-pool `LoadConst` (whose
pool slot holds `Integer(i)`) otherwise; at runtime both instructions store
`Integer(i)` into the destination register, so the two strategies are
equivalent. -/
theorem int_literal_compile_and_run (b : ParseProtoBuilder) (dst : Nat)
    (i : Int) (hah : b.lex.ahead = .integer i) :
    (((-(2 ^ 15) : Int) ≤ i ∧ i < 2 ^ 15) →
      loadExp b dst =
        .ok (emit { b with lex := { b.lex with ahead := .Eos } }
          (.LoadInt (asU8 dst) i))) ∧
    (¬ ((-(2 ^ 15) : Int) ≤ i ∧ i < 2 ^ 15) →
      ∃ b2 k, loadExp b dst = .ok b2 ∧
        b2.byte_codes = b.byte_codes ++ [.LoadConst (asU8 dst) (asU8 k)] ∧
        b2.constants.get? k = some (.integer i)) ∧
    (∀ (proto : ParseProto) (st : ExeState),
      stepInstr proto st (.LoadInt dst i) =
        .ok (setStack st dst (.integer i))) ∧
    (∀ (proto : ParseProto) (st : ExeState) (k : Nat),
      proto.constants.get? k = some (.integer i) →
      stepInstr proto st (.LoadConst dst k) =
        .ok (setStack st dst (.integer i))) := by
  have hnext : b.lex.next = .ok (.integer i, { b.lex with ahead := .Eos }) := by
    unfold Lex.next
    rw [hah]
    simp
  refine ⟨?_, ?_, fun proto st => rfl, ?_⟩
  · intro hr
    unfold loadExp
    rw [hnext]
    simp only [if_pos hr]
  · intro hr
    unfold loadExp
    rw [hnext]
    simp only [if_neg hr]
    obtain ⟨v, hv, hvc⟩ :=
      addConst_get { b with lex := { b.lex with ahead := Token.Eos } }
        (.integer i)
    have hv2 : v = Value.integer i := by
      cases hvc with
      | inl h => exact valueEq_integer_right v i h
      | inr h => exact h
    subst hv2
    refine ⟨_, (addConst { b with lex := { b.lex with ahead := Token.Eos } }
      (.integer i)).1, rfl, ?_, ?_⟩
    · simp [loadConst, emit, addConst]
      cases h : (b.constants.findIdx? (fun v => valueEq v (.integer i))) <;>
        simp [h]
    · simpa [loadConst, emit] using hv
  · intro proto st k hk
    rw [List.get?_eq_getElem?] at hk
    simp [stepInstr, hk]

/-- Witness for `int_literal_compile_and_run`: the literal `5` (in range)
becomes `LoadInt`, the literal `100000` (out of range) becomes a
constant-pool load, and both store the respective `Integer` at runtime. -/
theorem int_literal_compile_and_run_witness :
    (loadExp ⟨[], [], [], ⟨[], .integer 5⟩⟩ 0 =
      .ok (emit ⟨[], [], [], ⟨[], .Eos⟩⟩ (.LoadInt 0 5)) ∧
      stepInstr ⟨[], []⟩ ExeState.new (.LoadInt 0 5) =
        .ok (setStack ExeState.new 0 (.integer 5))) ∧
    (∃ b2 k, loadExp ⟨[], [], [], ⟨[], .integer 100000⟩⟩ 0 = .ok b2 ∧
      b2.byte_codes = [] ++ [.LoadConst 0 (asU8 k)] ∧
      b2.constants.get? k = some (.integer 100000)) ∧
    stepInstr ⟨[.integer 100000], []⟩ ExeState.new (.LoadConst 0 0) =
      .ok (setStack ExeState.new 0 (.integer 100000)) := by
  refine ⟨⟨?_, ?_⟩, ?_, ?_⟩
  · exact (int_literal_compile_and_run ⟨[], [], [], ⟨[], .integer 5⟩⟩ 0 5
      rfl).1 (by decide)
  · exact (int_literal_compile_and_run ⟨[], [], [], ⟨[], .integer 5⟩⟩ 0 5
      rfl).2.2.1 ⟨[], []⟩ ExeState.new
  · exact (int_literal_compile_and_run ⟨[], [], [], ⟨[], .integer 100000⟩⟩ 0
      100000 rfl).2.1 (by decide)
  · exact (int_literal_compile_and_run ⟨[], [], [], ⟨[], .integer 100000⟩⟩ 0
      100000 rfl).2.2.2 ⟨[.integer 100000], []⟩ ExeState.new 0 rfl

/-- C8: in `local NAME = EXPR` the initializer is compiled into register
`locals.len()` before `NAME` is appended to the locals, so `NAME` is not
visible to its own initializer: with no earlier local of that name, the
statement `local a = a` compiles its right-hand side to a `GetGlobal` at
register `locals.len()` (not a `Move`), and only afterwards is `a` added to
the locals list.  In general `load_var` yields a `Move` exactly for known
locals and a `GetGlobal` for unknown names. -/
theorem local_initializer_not_in_scope :
    (∀ (b : ParseProtoBuilder) (dst : Nat) (name : List Nat) (i : Nat),
      getLocal b name = some i →
      loadVar b dst name = (.Move (asU8 dst) (asU8 i), b)) ∧
    (∀ (b : ParseProtoBuilder) (dst : Nat) (name : List Nat),
      getLocal b name = none →
      ∃ b2 k, loadVar b dst name = (.GetGlobal (asU8 dst) (asU8 k), b2) ∧
        b2.locals = b.locals ∧ b2.byte_codes = b.byte_codes) ∧
    (∀ (cs : List Value) (bcs : List ByteCode) (ls : List (List Nat)),
      rposition ls (strBytes "a") = none →
      ∃ b2 k, localStmt ⟨cs, bcs, ls, ⟨strBytes " a = a", .Eos⟩⟩ = .ok b2 ∧
        b2.byte_codes = bcs ++ [.GetGlobal (asU8 ls.length) (asU8 k)] ∧
        b2.locals = ls ++ [strBytes "a"] ∧
        (∃ v, b2.constants.get? k = some v ∧
          valueEq v (Value.ofBytes (strBytes "a")) = true)) := by
  refine ⟨?_, ?_, ?_⟩
  · intro b dst name i hi
    unfold loadVar
    rw [hi]
  · intro b dst name hn
    unfold loadVar
    rw [hn]
    have hl : (addConst b (Value.ofBytes name)).2.locals = b.locals ∧
        (addConst b (Value.ofBytes name)).2.byte_codes = b.byte_codes := by
      unfold addConst
      cases b.constants.findIdx? (fun v => valueEq v (Value.ofBytes name)) <;>
        simp
    exact ⟨_, _, rfl, hl.1, hl.2⟩
  · intro cs bcs ls h
    have h1 : (Lex.mk (strBytes " a = a") Token.Eos).next =
        .ok (.name (strBytes "a"), ⟨strBytes " = a", .Eos⟩) := rfl
    have h2 : (Lex.mk (strBytes " = a") Token.Eos).next =
        .ok (.Assign, ⟨strBytes " a", .Eos⟩) := rfl
    have h3 : (Lex.mk (strBytes " a") Token.Eos).next =
        .ok (.name (strBytes "a"), ⟨[], .Eos⟩) := rfl
    unfold localStmt
    dsimp only
    rw [h1]
    dsimp only
    rw [h2]
    unfold loadExp
    dsimp only
    rw [h3]
    dsimp only
    unfold loadVar getLocal
    dsimp only
    rw [h]
    simp only [ne_eq, not_true_eq_false, if_false]
    unfold addConst
    cases h4 : cs.findIdx? (fun v => valueEq v (Value.ofBytes (strBytes "a"))) with
    | some i =>
      rw [List.findIdx?_eq_some_iff_getElem] at h4
      obtain ⟨hlt, hp, -⟩ := h4
      refine ⟨_, i, rfl, by simp [emit], by simp [emit], cs[i], ?_, hp⟩
      simp [emit, List.get?_eq_getElem?, List.getElem?_eq_getElem hlt]
    | none =>
      refine ⟨_, cs.length, rfl, by simp [emit], by simp [emit],
        Value.ofBytes (strBytes "a"), ?_, by decide⟩
      simp [emit, List.get?_eq_getElem?, List.getElem?_concat_length]

/-- Witness for `local_initializer_not_in_scope`: from an empty compiler
state (no locals at all), `local a = a` emits `GetGlobal` for the
initializer and appends `a` afterwards. -/
theorem local_initializer_not_in_scope_witness :
    (∃ b2 k, localStmt ⟨[], [], [], ⟨strBytes " a = a", .Eos⟩⟩ = .ok b2 ∧
      b2.byte_codes = [] ++ [.GetGlobal (asU8 (0 : Nat)) (asU8 k)] ∧
      b2.locals = [] ++ [strBytes "a"] ∧
      (∃ v, b2.constants.get? k = some v ∧
        valueEq v (Value.ofBytes (strBytes "a")) = true)) ∧
    (∃ b2 k, loadVar ⟨[], [], [], ⟨[], .Eos⟩⟩ 0 (strBytes "a") =
        (.GetGlobal (asU8 (0 : Nat)) (asU8 k), b2) ∧
      b2.locals = [] ∧ b2.byte_codes = []) := by
  constructor
  · have := local_initializer_not_in_scope.2.2 [] [] [] (by decide)
    simpa using this
  · have := local_initializer_not_in_scope.2.1 ⟨[], [], [], ⟨[], .Eos⟩⟩ 0
      (strBytes "a") (by decide)
    simpa using this


theorem poolExt_refl (cs : List Value) : PoolExt cs cs :=
  ⟨List.prefix_rfl, id⟩

theorem poolExt_trans {a b c : List Value} (h1 : PoolExt a b)
    (h2 : PoolExt b c) : PoolExt a c :=
  ⟨h1.1.trans h2.1, fun h => h2.2 (h1.2 h)⟩

theorem addConst_poolExt (b : ParseProtoBuilder) (c : Value) :
    PoolExt b.constants (addConst b c).2.constants := by
  unfold addConst
  cases h : b.constants.findIdx? (fun v => valueEq v c) with
  | some i => exact poolExt_refl _
  | none =>
    refine ⟨⟨[c], rfl⟩, fun hok => ?_⟩
    rw [List.findIdx?_eq_none_iff] at h
    rw [PoolOk, List.pairwise_append]
    exact ⟨hok, by simp, fun a ha e he => by
      simp only [List.mem_singleton] at he; subst he; exact h a ha⟩

theorem loadVar_poolExt (b : ParseProtoBuilder) (dst : Nat) (n : List Nat) :
    PoolExt b.constants (loadVar b dst n).2.constants := by
  unfold loadVar
  cases getLocal b n with
  | some i => exact poolExt_refl _
  | none => exact addConst_poolExt b (Value.ofBytes n)

theorem loadExp_poolExt (b : ParseProtoBuilder) (dst : Nat)
    (b2 : ParseProtoBuilder) (h : loadExp b dst = .ok b2) :
    PoolExt b.constants b2.constants := by
  unfold loadExp at h
  cases hn : b.lex.next with
  | error e => rw [hn] at h; cases h
  | ok tl =>
    obtain ⟨t, lex2⟩ := tl
    rw [hn] at h
    cases t <;> simp only [] at h
    case integer i =>
      split at h
      · cases h; exact poolExt_refl _
      · cases h
        exact addConst_poolExt { b with lex := lex2 } (.integer i)
    all_goals cases h
    all_goals first
      | exact poolExt_refl _
      | exact addConst_poolExt { b with lex := lex2 } _
      | exact loadVar_poolExt { b with lex := lex2 } dst _

theorem localStmt_poolExt (b b2 : ParseProtoBuilder)
    (h : localStmt b = .ok b2) : PoolExt b.constants b2.constants := by
  unfold localStmt at h
  cases hn : b.lex.next with
  | error e => rw [hn] at h; cases h
  | ok tl =>
    obtain ⟨t, lex2⟩ := tl
    rw [hn] at h
    cases t <;> simp only [] at h <;> try cases h
    case name v =>
      cases hn2 : ({ b with lex := lex2 } : ParseProtoBuilder).lex.next with
      | error e => rw [hn2] at h; cases h
      | ok tl2 =>
        obtain ⟨t2, lex3⟩ := tl2
        rw [hn2] at h
        simp only [] at h
        split at h
        · cases h
        · cases hle : loadExp { b with lex := lex3 } b.locals.length with
          | error e => rw [hle] at h; cases h
          | ok b3 =>
            rw [hle] at h
            cases h
            exact loadExp_poolExt { b with lex := lex3 } b.locals.length b3 hle

theorem functionCall_poolExt (b b2 : ParseProtoBuilder) (name : List Nat)
    (h : functionCall b name = .ok b2) : PoolExt b.constants b2.constants := by
  unfold functionCall at h
  simp only [] at h
  have hv := loadVar_poolExt b b.locals.length name
  set r := loadVar b b.locals.length name with hr
  cases hn : (emit r.2 r.1).lex.next with
  | error e => rw [hn] at h; cases h
  | ok tl =>
    obtain ⟨t, lex2⟩ := tl
    rw [hn] at h
    cases t <;> simp only [] at h
    case ParL =>
      cases hle : loadExp { emit r.2 r.1 with lex := lex2 }
          (({ emit r.2 r.1 with lex := lex2 } : ParseProtoBuilder).locals.length + 1) with
      | error e => rw [hle] at h; cases h
      | ok b3 =>
        rw [hle] at h
        simp only [] at h
        cases hn2 : b3.lex.next with
        | error e => rw [hn2] at h; cases h
        | ok tl2 =>
          obtain ⟨t2, lex3⟩ := tl2
          rw [hn2] at h
          simp only [] at h
          split at h
          · cases h
          · cases h
            have h3 := loadExp_poolExt _ _ _ hle
            exact poolExt_trans hv h3
    case string s =>
      cases h
      have h2 := addConst_poolExt { emit r.2 r.1 with lex := lex2 }
        (Value.ofBytes s)
      exact poolExt_trans hv h2
    all_goals cases h

theorem assignment_poolExt (b b2 : ParseProtoBuilder) (var : List Nat)
    (h : assignment b var = .ok b2) : PoolExt b.constants b2.constants := by
  unfold assignment at h
  cases hn : b.lex.next with
  | error e => rw [hn] at h; cases h
  | ok tl =>
    obtain ⟨t0, lex2⟩ := tl
    rw [hn] at h
    simp only [] at h
    cases hl : getLocal { b with lex := lex2 } var with
    | some i =>
      rw [hl] at h
      simp only [] at h
      exact loadExp_poolExt { b with lex := lex2 } i b2 h
    | none =>
      rw [hl] at h
      simp only [] at h
      have h1 := addConst_poolExt { b with lex := lex2 } (Value.ofBytes var)
      set r := addConst { b with lex := lex2 } (Value.ofBytes var) with hr
      cases hn2 : r.2.lex.next with
      | error e => rw [hn2] at h; cases h
      | ok tl2 =>
        obtain ⟨t, lex3⟩ := tl2
        rw [hn2] at h
        cases t <;> simp only [] at h
        case Nil =>
          cases h
          exact poolExt_trans h1 (addConst_poolExt { r.2 with lex := lex3 } .nil)
        case True =>
          cases h
          exact poolExt_trans h1
            (addConst_poolExt { r.2 with lex := lex3 } (.boolean true))
        case False =>
          cases h
          exact poolExt_trans h1
            (addConst_poolExt { r.2 with lex := lex3 } (.boolean false))
        case integer i =>
          cases h
          exact poolExt_trans h1
            (addConst_poolExt { r.2 with lex := lex3 } (.integer i))
        case float q =>
          cases h
          exact poolExt_trans h1
            (addConst_poolExt { r.2 with lex := lex3 } (Value.ofFloatLit q))
        case string s =>
          cases h
          exact poolExt_trans h1
            (addConst_poolExt { r.2 with lex := lex3 } (Value.ofBytes s))
        case name v2 =>
          cases hl2 : getLocal { r.2 with lex := lex3 } v2 with
          | some i => rw [hl2] at h; cases h; exact h1
          | none =>
            rw [hl2] at h
            cases h
            exact poolExt_trans h1
              (addConst_poolExt { r.2 with lex := lex3 } (Value.ofBytes v2))
        all_goals cases h

theorem loadLoop_poolExt (fuel : Nat) (b b2 : ParseProtoBuilder)
    (h : loadLoop fuel b = .ok b2) : PoolExt b.constants b2.constants := by
  induction fuel generalizing b with
  | zero => cases h
  | succ fuel ih =>
    unfold loadLoop at h
    cases hn : b.lex.next with
    | error e => rw [hn] at h; cases h
    | ok tl =>
      obtain ⟨t, lex2⟩ := tl
      rw [hn] at h
      cases t <;> simp only [] at h
      case name name =>
        cases hp : ({ b with lex := lex2 } : ParseProtoBuilder).lex.peek with
        | error e => rw [hp] at h; cases h
        | ok tlp =>
          obtain ⟨pk, lexP⟩ := tlp
          rw [hp] at h
          simp only [] at h
          by_cases hpk : pk = Token.Assign
          · rw [if_pos hpk] at h
            cases hst : assignment { b with lex := lexP } name with
            | error e => rw [hst] at h; cases h
            | ok b3 =>
              rw [hst] at h
              exact poolExt_trans
                (assignment_poolExt { b with lex := lexP } b3 name hst)
                (ih b3 h)
          · rw [if_neg hpk] at h
            cases hst : functionCall { b with lex := lexP } name with
            | error e => rw [hst] at h; cases h
            | ok b3 =>
              rw [hst] at h
              exact poolExt_trans
                (functionCall_poolExt { b with lex := lexP } b3 name hst)
                (ih b3 h)
      case Local =>
        cases hst : localStmt { b with lex := lex2 } with
        | error e => rw [hst] at h; cases h
        | ok b3 =>
          rw [hst] at h
          exact poolExt_trans (localStmt_poolExt { b with lex := lex2 } b3 hst)
            (ih b3 h)
      case Eos => cases h; exact poolExt_refl _
      all_goals cases h

theorem load_poolOk (input : List Nat) (proto : ParseProto)
    (h : ParseProto.load input = .ok proto) : PoolOk proto.constants := by
  unfold ParseProto.load at h
  cases hl : loadLoop (input.length + 1) (ParseProtoBuilder.new input) with
  | error e => rw [hl] at h; cases h
  | ok b =>
    rw [hl] at h
    cases h
    exact (loadLoop_poolExt _ _ _ hl).2 (List.Pairwise.nil)


/-- The two-statement program `x=1 x=2` (same global name twice) compiles
with exactly one pool entry for `x`: pool `[x, 1, 2]`, in first-use order. -/
theorem load_x1x2 : ParseProto.load (strBytes "x=1 x=2") =
    .ok ⟨[.shortStr 1 [120, 0, 0, 0, 0, 0, 0, 0, 0, 0, 0, 0, 0, 0],
      .integer 1, .integer 2],
      [.SetGlobalConst 0 1, .SetGlobalConst 0 2]⟩ := by
  have h1 : (Lex.mk [120, 61, 49, 32, 120, 61, 50] .Eos).next =
      .ok (.name [120], Lex.mk [61, 49, 32, 120, 61, 50] .Eos) := rfl
  have h2 : (Lex.mk [61, 49, 32, 120, 61, 50] .Eos).peek =
      .ok (.Assign, Lex.mk [49, 32, 120, 61, 50] .Assign) := rfl
  have hA1 : assignment ⟨[], [], [], ⟨[49, 32, 120, 61, 50], .Assign⟩⟩ [120] =
      .ok ⟨[.shortStr 1 [120, 0, 0, 0, 0, 0, 0, 0, 0, 0, 0, 0, 0, 0],
        .integer 1], [.SetGlobalConst 0 1], [],
        ⟨[32, 120, 61, 50], .Eos⟩⟩ := rfl
  have h3 : (Lex.mk [32, 120, 61, 50] .Eos).next =
      .ok (.name [120], Lex.mk [61, 50] .Eos) := rfl
  have h4 : (Lex.mk [61, 50] .Eos).peek =
      .ok (.Assign, Lex.mk [50] .Assign) := rfl
  have hA2 : assignment
      ⟨[.shortStr 1 [120, 0, 0, 0, 0, 0, 0, 0, 0, 0, 0, 0, 0, 0], .integer 1],
        [.SetGlobalConst 0 1], [], ⟨[50], .Assign⟩⟩ [120] =
      .ok ⟨[.shortStr 1 [120, 0, 0, 0, 0, 0, 0, 0, 0, 0, 0, 0, 0, 0],
        .integer 1, .integer 2],
        [.SetGlobalConst 0 1, .SetGlobalConst 0 2], [], ⟨[], .Eos⟩⟩ := rfl
  have h5 : (Lex.mk [] .Eos).next = .ok (.Eos, Lex.mk [] .Eos) := rfl
  have hLL : ∀ fuel, loadLoop (fuel + 1 + 1 + 1)
      ⟨[], [], [], ⟨[120, 61, 49, 32, 120, 61, 50], .Eos⟩⟩ =
      .ok ⟨[.shortStr 1 [120, 0, 0, 0, 0, 0, 0, 0, 0, 0, 0, 0, 0, 0],
        .integer 1, .integer 2],
        [.SetGlobalConst 0 1, .SetGlobalConst 0 2], [], ⟨[], .Eos⟩⟩ := by
    intro fuel
    unfold loadLoop
    dsimp only
    rw [h1]
    dsimp only
    rw [h2]
    dsimp only
    rw [if_pos rfl]
    rw [hA1]
    dsimp only
    unfold loadLoop
    dsimp only
    rw [h3]
    dsimp only
    rw [h4]
    dsimp only
    rw [if_pos rfl]
    rw [hA2]
    dsimp only
    unfold loadLoop
    dsimp only
    rw [h5]
  unfold ParseProto.load
  rw [show (strBytes "x=1 x=2").length + 1 = 5 + 1 + 1 + 1 from rfl,
    show ParseProtoBuilder.new (strBytes "x=1 x=2") =
      ⟨[], [], [], ⟨[120, 61, 49, 32, 120, 61, 50], .Eos⟩⟩ from rfl, hLL 5]

/-- C6: the compiler's constant pool never contains two structurally-equal
entries: `add_const` returns the index of the first equal constant when one
exists (leaving the pool untouched) and appends otherwise, the pool only
grows by appends during compilation (first-use order), every successfully
compiled program has a duplicate-free pool, and compiling two statements
that reference the same literal (the global name `x` twice) produces
exactly one pool entry for it. -/
theorem constant_pool_dedup :
    (∀ (input : List Nat) (proto : ParseProto),
      ParseProto.load input = .ok proto → PoolOk proto.constants) ∧
    (∀ (b : ParseProtoBuilder) (c : Value),
      (∃ v ∈ b.constants, valueEq v c = true) →
      addConst b c = (b.constants.findIdx (fun v => valueEq v c), b)) ∧
    (∀ (b : ParseProtoBuilder) (c : Value),
      (∀ v ∈ b.constants, valueEq v c = false) →
      addConst b c =
        (b.constants.length, { b with constants := b.constants ++ [c] })) ∧
    (∀ (fuel : Nat) (b b2 : ParseProtoBuilder),
      loadLoop fuel b = .ok b2 → b.constants <+: b2.constants) ∧
    ParseProto.load (strBytes "x=1 x=2") =
      .ok ⟨[Value.ofBytes (strBytes "x"), .integer 1, .integer 2],
        [.SetGlobalConst 0 1, .SetGlobalConst 0 2]⟩ := by
  refine ⟨load_poolOk, ?_, ?_,
    fun fuel b b2 h => (loadLoop_poolExt fuel b b2 h).1, load_x1x2⟩
  · intro b c hex
    unfold addConst
    rw [List.findIdx?_eq_some_of_exists hex]
  · intro b c hall
    unfold addConst
    rw [List.findIdx?_eq_none_iff.mpr hall]

/-- Witness for `constant_pool_dedup` on concrete states: the compiled pool
of `x=1 x=2` is duplicate-free; adding a present constant returns its index
without growing the pool; adding an absent one appends; a concrete
`loadLoop` run only appends to the pool. -/
theorem constant_pool_dedup_witness :
    PoolOk [Value.ofBytes (strBytes "x"), .integer 1, .integer 2] ∧
    addConst ⟨[.integer 7], [], [], ⟨[], .Eos⟩⟩ (.integer 7) =
      (List.findIdx (fun v => valueEq v (.integer 7)) [.integer 7],
        ⟨[.integer 7], [], [], ⟨[], .Eos⟩⟩) ∧
    addConst ⟨[.integer 7], [], [], ⟨[], .Eos⟩⟩ (.integer 8) =
      (1, ⟨[.integer 7, .integer 8], [], [], ⟨[], .Eos⟩⟩) ∧
    ([Value.integer 7] : List Value) <+: [Value.integer 7] := by
  refine ⟨constant_pool_dedup.1 (strBytes "x=1 x=2")
      ⟨[Value.ofBytes (strBytes "x"), .integer 1, .integer 2],
        [.SetGlobalConst 0 1, .SetGlobalConst 0 2]⟩
      constant_pool_dedup.2.2.2.2,
    constant_pool_dedup.2.1 ⟨[.integer 7], [], [], ⟨[], .Eos⟩⟩ (.integer 7)
      ⟨.integer 7, by simp, by decide⟩, ?_, ?_⟩
  · have := constant_pool_dedup.2.2.1 ⟨[.integer 7], [], [], ⟨[], .Eos⟩⟩
      (.integer 8) (by decide)
    simpa using this
  · exact constant_pool_dedup.2.2.2.1 1
      ⟨[.integer 7], [], [], ⟨[], .Eos⟩⟩
      ⟨[.integer 7], [], [], ⟨[], .Eos⟩⟩ rfl

/-- Witness for `index_oob_amended` at concrete out-of-bounds programs. -/
theorem index_oob_amended_witness :
    (ParseProto.mk [] []).getGlobal 0 = .error (.rt .constIndexOutOfBounds) ∧
    stepInstr ⟨[], []⟩ ExeState.new (.SetGlobalGlobal 0 0) =
      .error (.rt .constIndexOutOfBounds) ∧
    stepInstr ⟨[], []⟩ ExeState.new (.LoadConst 0 0) = .error .panic ∧
    stepInstr ⟨[], []⟩ ExeState.new (.Move 0 0) = .error .panic :=
  ⟨index_oob_amended.1 ⟨[], []⟩ 0 (by decide),
    index_oob_amended.2.1 ⟨[], []⟩ ExeState.new 0 0 (by decide),
    index_oob_amended.2.2.2.2.2.1 ⟨[], []⟩ ExeState.new 0 0 (by decide),
    index_oob_amended.2.2.2.2.2.2.2.1 ⟨[], []⟩ ExeState.new 0 0 (by decide)⟩

end Kailua
